import Mathlib

/-!
Shallow embedding of the auction repository of goTasks (package `auction`):
the Mongo-backed store (`CreateAuction`, `FindAuctionById`, `FindAuctions`,
`updateAuctionStatus`), the expiry goroutine spawned by `CreateAuction`, and
the interval configuration (`getAuctionInterval`, Go's `time.ParseDuration`).

The Mongo collection is modelled as a list of `AuctionEntityMongo` documents
in insertion order; `InsertOne` fails exactly on a duplicate `_id` (the
duplicate-key write error exercised by the repository's tests), `FindOne` and
`UpdateOne` act on the first document matching the `_id` filter.  Transport
failures of the driver are not modelled.  Log output of `logger.Error` is
modelled as a list of message strings where a claim needs it.
-/

/-- Model of Go `time.Time` restricted to what the repository uses: a wall
clock instant as seconds since the Unix epoch plus a nanosecond part
(normalized, `0 ≤ nsec < 10^9`). -/
structure GoTime where
  sec : Int
  nsec : Int
deriving DecidableEq

/-- Model of `(time.Time).Unix()`: the Unix seconds, discarding `nsec`. -/
def GoTime.Unix (t : GoTime) : Int := t.sec

/-- Model of Go `time.Unix(sec, nsec)` for normalized arguments. -/
def timeUnix (sec nsec : Int) : GoTime := ⟨sec, nsec⟩

/-- Truncation of an instant to whole-second precision,
`time.Unix(t.Unix(), 0)`. -/
def truncToSecond (t : GoTime) : GoTime := ⟨t.sec, 0⟩

/-- Go type `auction_entity.AuctionStatus` is an `int`
(`0 = Active`, `1 = Completed`; `-1` is the "no status filter" sentinel of
`FindAuctions`). -/
abbrev AuctionStatus := Int

/-- Constant `auction_entity.Active = 0`. -/
def Active : AuctionStatus := 0

/-- Constant `auction_entity.Completed = 1`. -/
def Completed : AuctionStatus := 1

/-- Go type `auction_entity.ProductCondition` is an `int`
(`New = 1`, `Used = 2`, `Refurbished = 3`). -/
abbrev ProductCondition := Int

/-- Constant `auction_entity.New = 1`. -/
def New : ProductCondition := 1

/-- Constant `auction_entity.Used = 2`. -/
def Used : ProductCondition := 2

/-- Constant `auction_entity.Refurbished = 3`. -/
def Refurbished : ProductCondition := 3

/-- The domain entity `auction_entity.Auction`. -/
structure Auction where
  Id : String
  ProductName : String
  Category : String
  Description : String
  Condition : ProductCondition
  Status : AuctionStatus
  Timestamp : GoTime
deriving DecidableEq

/-- The persistence shape `AuctionEntityMongo`: same descriptive fields, but
the timestamp is stored as Unix seconds (`int64`). -/
structure AuctionEntityMongo where
  Id : String
  ProductName : String
  Category : String
  Description : String
  Condition : ProductCondition
  Status : AuctionStatus
  Timestamp : Int
deriving DecidableEq

/-- Modelled from the spec: the `internal_error` package is not under `src`;
per the error taxonomy of the spec it carries a message and a kind that
distinguishes not-found from internal (storage) errors. -/
structure InternalError where
  Message : String
  Err : String
deriving DecidableEq

/-- Modelled from the spec: constructor of the internal-server-error kind. -/
def NewInternalServerError (m : String) : InternalError :=
  ⟨m, "internal_server_error"⟩

/-- Modelled from the spec: constructor of the not-found error kind. -/
def NewNotFoundError (m : String) : InternalError :=
  ⟨m, "not_found"⟩

/-- The conversion performed by `CreateAuction` from the entity to the Mongo
document: field for field, with `Timestamp: auctionEntity.Timestamp.Unix()`. -/
def auctionToMongo (a : Auction) : AuctionEntityMongo :=
  ⟨a.Id, a.ProductName, a.Category, a.Description, a.Condition, a.Status,
    a.Timestamp.Unix⟩

/-- The conversion performed by `FindAuctionById` and `FindAuctions` from the
Mongo document back to the entity, with `Timestamp: time.Unix(ts, 0)`. -/
def mongoToAuction (d : AuctionEntityMongo) : Auction :=
  ⟨d.Id, d.ProductName, d.Category, d.Description, d.Condition, d.Status,
    timeUnix d.Timestamp 0⟩

/-- Model of `Collection.InsertOne`: fails (duplicate key) when a document
with the same `_id` exists, otherwise appends the document. -/
def insertOne (db : List AuctionEntityMongo) (d : AuctionEntityMongo) :
    Option (List AuctionEntityMongo) :=
  if db.any (fun x => x.Id == d.Id) then none else some (db ++ [d])

/-- The store part of `CreateAuction`: convert, insert, map an insert failure
to the internal-server error; the expiry goroutine it spawns is modelled by
`expiryUnitRun` below. -/
def CreateAuction (db : List AuctionEntityMongo) (a : Auction) :
    Except InternalError (List AuctionEntityMongo) :=
  match insertOne db (auctionToMongo a) with
  | none => .error (NewInternalServerError "Error trying to insert auction")
  | some db2 => .ok db2

/-- Source `FindAuctionById`: `FindOne` with filter `{_id: id}` and decode;
any failure (here: no matching document) yields the one generic
internal-server error, otherwise the decoded entity. -/
def FindAuctionById (db : List AuctionEntityMongo) (id : String) :
    Except InternalError Auction :=
  match db.find? (fun d => d.Id == id) with
  | none => .error (NewInternalServerError "Error trying to find auction by id")
  | some d => .ok (mongoToAuction d)

/-- Whether `pat` is a prefix of `s` (on lists of characters). -/
def listIsPrefixOf (pat s : List Char) : Bool :=
  match pat, s with
  | [], _ => true
  | _ :: _, [] => false
  | p :: ps, c :: cs => p == c && listIsPrefixOf ps cs

/-- Whether `pat` occurs contiguously inside `s` (on lists of characters). -/
def listContainsSub (pat s : List Char) : Bool :=
  match s with
  | [] => pat.isEmpty
  | _ :: cs => listIsPrefixOf pat s || listContainsSub pat cs

/-- Model of matching the Mongo filter value
`primitive.Regex{Pattern: p, Options: "i"}` against a stored string, for
metacharacter-free patterns as used here: case-insensitive substring
containment. -/
def ciContains (pat s : String) : Bool :=
  listContainsSub (pat.toList.map Char.toLower) (s.toList.map Char.toLower)

/-- The filter document built by `FindAuctions`: a key is added for each
non-sentinel argument, and Mongo conjoins the keys.  `status` (added unless
the argument is `-1`) and `category` (added unless empty) match by equality;
`productName` (added unless empty) matches by case-insensitive regex. -/
def auctionMatches (status : AuctionStatus) (category productName : String)
    (d : AuctionEntityMongo) : Bool :=
  (status == -1 || d.Status == status) &&
  (category == "" || d.Category == category) &&
  (productName == "" || ciContains productName d.ProductName)

/-- Source `FindAuctions`: all documents matching the filter, decoded. -/
def FindAuctions (db : List AuctionEntityMongo) (status : AuctionStatus)
    (category productName : String) : List Auction :=
  (db.filter (auctionMatches status category productName)).map mongoToAuction

/-- Model of `Collection.UpdateOne` with filter `{_id: auctionId}` and update
`{$set: {status: status}}`: rewrite the status of the first document whose
`_id` matches; return the new collection and the `MatchedCount`. -/
def updateOneById (db : List AuctionEntityMongo) (id : String)
    (st : AuctionStatus) : List AuctionEntityMongo × Nat :=
  match db with
  | [] => ([], 0)
  | d :: rest =>
    if d.Id == id then ({ d with Status := st } :: rest, 1)
    else
      let r := updateOneById rest id st
      (d :: r.1, r.2)

/-- Result of one `updateAuctionStatus` call: the collection afterwards, the
returned error (`none` = success), and the `logger.Error` messages emitted. -/
structure UpdateOutcome where
  db : List AuctionEntityMongo
  err : Option InternalError
  logs : List String
deriving DecidableEq

/-- Source `updateAuctionStatus`: `UpdateOne` on `_id`, then a not-found
error (logged) when `MatchedCount == 0`, else success.  The transport-error
branch of the source is not reachable in this model. -/
def updateAuctionStatus (db : List AuctionEntityMongo) (auctionId : String)
    (status : AuctionStatus) : UpdateOutcome :=
  let r := updateOneById db auctionId status
  if r.2 == 0 then
    ⟨r.1, some (NewNotFoundError "Auction not found"),
      ["Auction not found for status update"]⟩
  else ⟨r.1, none, []⟩

/-- The two arms of the `select` inside the goroutine spawned by
`CreateAuction`: the `time.After(ar.auctionInterval)` timer fires first, or
`ar.ctx.Done()` is observed first. -/
inductive ExpiryEvent where
  | timerFired
  | ctxDone
deriving DecidableEq

/-- Terminal state of the expiry goroutine: it ran the close attempt
(`closed`) or exited on the cancellation signal (`aborted`).  Either way the
goroutine body ends; it never loops. -/
inductive ExpiryFinal where
  | closed
  | aborted
deriving DecidableEq

/-- Result of one run of the expiry goroutine. -/
structure ExpiryRun where
  db : List AuctionEntityMongo
  updateAttempts : Nat
  logs : List String
  final : ExpiryFinal
deriving DecidableEq

/-- The goroutine body spawned by `CreateAuction`, applied to the state of
the collection at the moment its `select` resolves.  On `timerFired` it calls
`updateAuctionStatus(id, Completed)` exactly once, discarding the returned
error (the `if err != nil` that follows in the source inspects the `InsertOne`
error, which is necessarily `nil` there); failures are logged only inside
`updateAuctionStatus`.  On `ctxDone` it logs and returns without touching the
store. -/
def expiryUnitRun (db : List AuctionEntityMongo) (auctionId : String)
    (ev : ExpiryEvent) : ExpiryRun :=
  match ev with
  | .timerFired =>
    let u := updateAuctionStatus db auctionId Completed
    ⟨u.db, 1, u.logs, .closed⟩
  | .ctxDone =>
    ⟨db, 0, ["Context cancelled while waiting for auction expiry"], .aborted⟩

/-- Step of Go's `leadingInt`: consume leading digits into `x`, failing (as
the source does) when the accumulator would pass `1<<63/10` before the next
digit or `1<<63` after it. -/
def leadingInt (x : Nat) : List Char → Option (Nat × List Char)
  | [] => some (x, [])
  | c :: cs =>
    if c.isDigit then
      if x > 922337203685477580 then none
      else
        let y := x * 10 + (c.toNat - 48)
        if y > 9223372036854775808 then none
        else leadingInt y cs
    else some (x, c :: cs)

/-- Step of Go's `leadingFraction`: consume digits after the decimal point
into `x` with `scale` the power of ten consumed, freezing both once the
accumulator would overflow (the source's `overflow` flag). -/
def leadingFraction (x scale : Nat) (overflow : Bool) :
    List Char → Nat × Nat × List Char
  | [] => (x, scale, [])
  | c :: cs =>
    if c.isDigit then
      if overflow then leadingFraction x scale overflow cs
      else if x > 922337203685477580 then leadingFraction x scale true cs
      else
        let y := x * 10 + (c.toNat - 48)
        if y > 9223372036854775808 then leadingFraction x scale true cs
        else leadingFraction y (scale * 10) overflow cs
    else (x, scale, c :: cs)

/-- The unit table of `time.ParseDuration`, in nanoseconds. -/
def unitMap (u : List Char) : Option Nat :=
  match u with
  | ['n', 's'] => some 1
  | ['u', 's'] => some 1000
  | ['µ', 's'] => some 1000
  | ['μ', 's'] => some 1000
  | ['m', 's'] => some 1000000
  | ['s'] => some 1000000000
  | ['m'] => some 60000000000
  | ['h'] => some 3600000000000
  | _ => none

/-- The main loop of `time.ParseDuration`: one `number unit` group per
iteration, accumulated into `d` (nanoseconds), with the source's overflow
checks.  The fractional contribution `f * unit / scale` is computed as an
exact rational floor, which agrees with the source's `float64` path on the
magnitudes where `float64` is exact.  `fuel` bounds the recursion; each
iteration consumes at least one character, so `fuel = length` suffices and
the `fuel = 0` branch is unreachable from `parseDuration`. -/
def parseDurationLoop : Nat → Nat → List Char → Option Nat
  | _, d, [] => some d
  | 0, _, _ :: _ => none
  | fuel + 1, d, c :: cs =>
    if !(c == '.' || c.isDigit) then none
    else
      match leadingInt 0 (c :: cs) with
      | none => none
      | some (v, s1) =>
        let pre := (c :: cs).length != s1.length
        let fr :=
          match s1 with
          | '.' :: rest =>
            let r := leadingFraction 0 1 false rest
            (r.1, r.2.1, r.2.2, rest.length != r.2.2.length)
          | _ => (0, 1, s1, false)
        if !pre && !fr.2.2.2 then none
        else
          let u := fr.2.2.1.takeWhile (fun ch => !(ch == '.' || ch.isDigit))
          let s3 := fr.2.2.1.dropWhile (fun ch => !(ch == '.' || ch.isDigit))
          if u.isEmpty then none
          else
            match unitMap u with
            | none => none
            | some unit =>
              if v > 9223372036854775808 / unit then none
              else
                let v1 := v * unit
                let v2 :=
                  if fr.1 > 0 then some (v1 + fr.1 * unit / fr.2.1) else some v1
                match v2 with
                | none => none
                | some v2v =>
                  if fr.1 > 0 && decide (v2v > 9223372036854775808) then none
                  else
                    let d2 := d + v2v
                    if d2 > 9223372036854775808 then none
                    else parseDurationLoop fuel d2 s3

/-- Source model of Go `time.ParseDuration`: optional sign, the `"0"`
special case, then the group loop; the result is the signed nanosecond count
(`time.Duration` is an `int64`). -/
def parseDuration (str : String) : Option Int :=
  let s0 := str.toList
  let sgn :=
    match s0 with
    | '-' :: rest => (true, rest)
    | '+' :: rest => (false, rest)
    | _ => (false, s0)
  if sgn.2 == ['0'] then some 0
  else if sgn.2.isEmpty then none
  else
    match parseDurationLoop sgn.2.length 0 sgn.2 with
    | none => none
    | some d =>
      if sgn.1 then some (-(d : Int))
      else if d > 9223372036854775807 then none
      else some (d : Int)

/-- Source `getAuctionInterval`: parse the `AUCTION_INTERVAL` environment
string (`os.Getenv` yields `""` when the variable is absent); on any parse
failure log and return the default `time.Minute * 5` (300000000000 ns).  The
return type has no error channel: no failure reaches a caller. -/
def getAuctionInterval (auctionInterval : String) : Int :=
  match parseDuration auctionInterval with
  | none => 300000000000
  | some duration => duration

def sampleTime : GoTime := ⟨100, 500000000⟩

def sampleAuction : Auction :=
  ⟨"auction-1", "iPhone 15 Pro", "Electronics", "great phone", New, Active,
    sampleTime⟩

def sampleDb : List AuctionEntityMongo := [auctionToMongo sampleAuction]

/-- The record `FindAuctionById` hands back for `sampleAuction`: same fields,
timestamp truncated to the whole second. -/
def sampleFound : Auction :=
  ⟨"auction-1", "iPhone 15 Pro", "Electronics", "great phone", New, Active,
    ⟨100, 0⟩⟩

def electronicsDoc : AuctionEntityMongo :=
  ⟨"e1", "iPhone 15 Pro", "Electronics", "great phone", New, Active, 10⟩

def activeDoc : AuctionEntityMongo :=
  ⟨"a1", "Chair", "Furniture", "solid", Used, Active, 20⟩

def completedDoc : AuctionEntityMongo :=
  ⟨"c1", "Lamp", "Furniture", "bright", Used, Completed, 30⟩


lemma beq_id_eq_false {d : AuctionEntityMongo} {id : String}
    (h : ¬ d.Id = id) : (d.Id == id) = false := by
  simp only [beq_eq_false_iff_ne, ne_eq]
  exact h

lemma CreateAuction_ok {db : List AuctionEntityMongo} {a : Auction}
    {db2 : List AuctionEntityMongo} (h : CreateAuction db a = .ok db2) :
    db2 = db ++ [auctionToMongo a] ∧ ∀ d ∈ db, ¬ d.Id = a.Id := by
  unfold CreateAuction insertOne at h
  by_cases hc : db.any (fun x => x.Id == (auctionToMongo a).Id) = true
  · rw [if_pos hc] at h
    simp at h
  · rw [if_neg hc] at h
    simp only [Except.ok.injEq] at h
    refine ⟨h.symm, ?_⟩
    intro d hd
    simp only [List.any_eq_true, beq_iff_eq, not_exists] at hc
    push_neg at hc
    exact hc d hd

lemma updateOneById_no_match {db : List AuctionEntityMongo} {id : String}
    (st : AuctionStatus) (h : ∀ d ∈ db, ¬ d.Id = id) :
    updateOneById db id st = (db, 0) := by
  induction db with
  | nil => rfl
  | cons d rest ih =>
    have hd : (d.Id == id) = false := beq_id_eq_false (h d (by simp))
    have hr := ih (fun x hx => h x (List.mem_cons_of_mem d hx))
    simp [updateOneById, hd, hr]

lemma updateOneById_append_hit {db : List AuctionEntityMongo}
    {doc : AuctionEntityMongo} {id : String} (st : AuctionStatus)
    (h : ∀ d ∈ db, ¬ d.Id = id) (hd : doc.Id = id) :
    updateOneById (db ++ [doc]) id st =
      (db ++ [{ doc with Status := st }], 1) := by
  induction db with
  | nil => simp [updateOneById, hd]
  | cons x rest ih =>
    have hx : (x.Id == id) = false := beq_id_eq_false (h x (by simp))
    have hr := ih (fun y hy => h y (List.mem_cons_of_mem x hy))
    simp [updateOneById, hx, hr]

lemma find?_id_no_match {db : List AuctionEntityMongo} {id : String}
    (h : ∀ d ∈ db, ¬ d.Id = id) :
    db.find? (fun d => d.Id == id) = none := by
  induction db with
  | nil => rfl
  | cons d rest ih =>
    have hd : (d.Id == id) = false := beq_id_eq_false (h d (by simp))
    have hr := ih (fun x hx => h x (List.mem_cons_of_mem d hx))
    simp [List.find?, hd, hr]

lemma find?_id_append_hit {db : List AuctionEntityMongo}
    {doc : AuctionEntityMongo} {id : String}
    (h : ∀ d ∈ db, ¬ d.Id = id) (hd : doc.Id = id) :
    (db ++ [doc]).find? (fun d => d.Id == id) = some doc := by
  induction db with
  | nil => simp [List.find?, hd]
  | cons x rest ih =>
    have hx : (x.Id == id) = false := beq_id_eq_false (h x (by simp))
    have hr := ih (fun y hy => h y (List.mem_cons_of_mem x hy))
    simp [List.find?, hx, hr]

lemma updateOneById_matched_of_mem {db : List AuctionEntityMongo}
    {id : String} (st : AuctionStatus) {d : AuctionEntityMongo}
    (hmem : d ∈ db) (hid : d.Id = id) :
    (updateOneById db id st).2 = 1 ∧
      ∃ d2 ∈ (updateOneById db id st).1, d2.Id = id ∧ d2.Status = st := by
  induction db with
  | nil => cases hmem
  | cons x rest ih =>
    by_cases hx : x.Id = id
    · have hb : (x.Id == id) = true := beq_iff_eq.mpr hx
      refine ⟨by simp [updateOneById, hb], ?_⟩
      exact ⟨{ x with Status := st }, by simp [updateOneById, hb], hx, rfl⟩
    · have hb : (x.Id == id) = false := beq_id_eq_false hx
      have hdr : d ∈ rest := by
        rcases List.mem_cons.mp hmem with h1 | h1
        · exact absurd (h1 ▸ hid) hx
        · exact h1
      obtain ⟨h1, d2, hd2, hprops⟩ := ih hdr
      refine ⟨by simp [updateOneById, hb, h1], ?_⟩
      exact ⟨d2, by simp [updateOneById, hb]; exact Or.inr hd2, hprops⟩

lemma mem_updateOneById {id : String} {st : AuctionStatus}
    {d2 : AuctionEntityMongo} :
    ∀ {db : List AuctionEntityMongo}, d2 ∈ (updateOneById db id st).1 →
      ∃ d ∈ db, d2 = d ∨ (d.Id = id ∧ d2 = { d with Status := st })
  | [], h => by simp [updateOneById] at h
  | x :: rest, h => by
    by_cases hx : (x.Id == id) = true
    · rw [show updateOneById (x :: rest) id st
          = ({ x with Status := st } :: rest, 1) from by
            simp [updateOneById, hx]] at h
      rcases List.mem_cons.mp h with h1 | h1
      · exact ⟨x, by simp, Or.inr ⟨beq_iff_eq.mp hx, h1⟩⟩
      · exact ⟨d2, List.mem_cons_of_mem x h1, Or.inl rfl⟩
    · have hxf : (x.Id == id) = false := by
        rw [Bool.not_eq_true] at hx
        exact hx
      rw [show updateOneById (x :: rest) id st
          = (x :: (updateOneById rest id st).1, (updateOneById rest id st).2)
          from by simp [updateOneById, hxf]] at h
      rcases List.mem_cons.mp h with h1 | h1
      · exact ⟨x, by simp, Or.inl h1⟩
      · obtain ⟨d, hd, hcase⟩ := mem_updateOneById h1
        exact ⟨d, List.mem_cons_of_mem x hd, hcase⟩


/-- The frame property one `$set: {status}` update guarantees per document:
identity and every descriptive field are kept, and the status of a document
whose `_id` is not the targeted one is kept too. -/
def frameRel (id : String) (d d2 : AuctionEntityMongo) : Prop :=
  d2.Id = d.Id ∧ d2.ProductName = d.ProductName ∧ d2.Category = d.Category ∧
  d2.Description = d.Description ∧ d2.Condition = d.Condition ∧
  d2.Timestamp = d.Timestamp ∧ (¬ d.Id = id → d2.Status = d.Status)

lemma frameRel_refl (id : String) (d : AuctionEntityMongo) :
    frameRel id d d :=
  ⟨rfl, rfl, rfl, rfl, rfl, rfl, fun _ => rfl⟩

lemma forall₂_frameRel_refl (id : String) (l : List AuctionEntityMongo) :
    List.Forall₂ (frameRel id) l l := by
  induction l with
  | nil => exact List.Forall₂.nil
  | cons x xs ih => exact List.Forall₂.cons (frameRel_refl id x) ih

lemma updateOneById_frame (db : List AuctionEntityMongo) (id : String)
    (st : AuctionStatus) :
    List.Forall₂ (frameRel id) db (updateOneById db id st).1 := by
  induction db with
  | nil => exact List.Forall₂.nil
  | cons x rest ih =>
    by_cases hx : (x.Id == id) = true
    · rw [show updateOneById (x :: rest) id st
          = ({ x with Status := st } :: rest, 1) from by
            simp [updateOneById, hx]]
      refine List.Forall₂.cons ?_ (forall₂_frameRel_refl id rest)
      exact ⟨rfl, rfl, rfl, rfl, rfl, rfl,
        fun hne => absurd (beq_iff_eq.mp hx) hne⟩
    · have hxf : (x.Id == id) = false := by
        rw [Bool.not_eq_true] at hx
        exact hx
      rw [show updateOneById (x :: rest) id st
          = (x :: (updateOneById rest id st).1, (updateOneById rest id st).2)
          from by simp [updateOneById, hxf]]
      exact List.Forall₂.cons (frameRel_refl id x) ih

lemma auctionMatches_sentinel (d : AuctionEntityMongo) :
    auctionMatches (-1) "" "" d = true := by
  simp [auctionMatches]

lemma mem_FindAuctions {db : List AuctionEntityMongo} {st : AuctionStatus}
    {c p : String} {r : Auction} :
    r ∈ FindAuctions db st c p ↔
      ∃ d, d ∈ db ∧ r = mongoToAuction d ∧
        (st = -1 ∨ d.Status = st) ∧ (c = "" ∨ d.Category = c) ∧
        (p = "" ∨ ciContains p d.ProductName = true) := by
  unfold FindAuctions
  simp only [List.mem_map, List.mem_filter, auctionMatches, Bool.and_eq_true,
    Bool.or_eq_true, beq_iff_eq]
  constructor
  · rintro ⟨d, ⟨hmem, hcond⟩, hconv⟩
    exact ⟨d, hmem, hconv.symm, hcond.1.1, hcond.1.2, hcond.2⟩
  · rintro ⟨d, hmem, hconv, h1, h2, h3⟩
    exact ⟨d, ⟨hmem, ⟨h1, h2⟩, h3⟩, hconv.symm⟩

/-- C2 counterexample: the claim asserts every field returned by a subsequent
`FindAuctionById`, the creation timestamp included, equals what was supplied;
for `sampleAuction`, whose timestamp carries half a second of sub-second
precision, the returned timestamp differs from the supplied one. -/
theorem create_find_subsecond_counterexample :
    CreateAuction [] sampleAuction = .ok sampleDb ∧
    FindAuctionById sampleDb "auction-1" = .ok sampleFound ∧
    ¬ sampleFound.Timestamp = sampleAuction.Timestamp := by
  refine ⟨rfl, rfl, ?_⟩
  decide

/-- C2 (amended): for every auction record successfully stored by
`CreateAuction`, a subsequent `FindAuctionById` with the same identifier
returns a record whose identifier, product name, category, description,
condition and status equal the supplied values, and whose creation timestamp
equals the supplied timestamp truncated to the whole second. -/
theorem create_find_returns_supplied_fields
    (db : List AuctionEntityMongo) (a : Auction)
    (db2 : List AuctionEntityMongo) (h : CreateAuction db a = .ok db2) :
    FindAuctionById db2 a.Id =
      .ok { a with Timestamp := truncToSecond a.Timestamp } := by
  obtain ⟨hdb, hfree⟩ := CreateAuction_ok h
  subst hdb
  unfold FindAuctionById
  rw [find?_id_append_hit hfree (show (auctionToMongo a).Id = a.Id from rfl)]
  rfl

/-- C2 witness: the round trip instantiated at `sampleAuction` against the
empty store. -/
theorem create_find_returns_supplied_fields_witness :
    FindAuctionById sampleDb sampleAuction.Id = .ok sampleFound := by
  have h := create_find_returns_supplied_fields [] sampleAuction sampleDb rfl
  exact h

/-- C5: `updateAuctionStatus` on an identifier absent from the store returns
the not-found error (distinct from the internal-server kind) and leaves the
collection unchanged; on a present identifier it returns no error and the
store holds a record with that identifier whose status is the new status. -/
theorem updateAuctionStatus_not_found_or_updates
    (db : List AuctionEntityMongo) (id : String) (st : AuctionStatus) :
    ((∀ d ∈ db, ¬ d.Id = id) →
       (updateAuctionStatus db id st).db = db ∧
       (updateAuctionStatus db id st).err =
         some (NewNotFoundError "Auction not found")) ∧
    (∀ d ∈ db, d.Id = id →
       (updateAuctionStatus db id st).err = none ∧
       ∃ d2 ∈ (updateAuctionStatus db id st).db,
         d2.Id = id ∧ d2.Status = st) := by
  constructor
  · intro h
    have hz := updateOneById_no_match st h
    simp only [updateAuctionStatus, hz]
    exact ⟨rfl, rfl⟩
  · intro d hmem hid
    obtain ⟨hm, d2, hd2, hprops⟩ := updateOneById_matched_of_mem st hmem hid
    simp only [updateAuctionStatus, hm]
    exact ⟨rfl, d2, hd2, hprops⟩

/-- C5 witness: the not-found branch at the scenario input
`UpdateStatus("nonexistent-id", Completed)` on the empty store, and the
success branch at `activeDoc`. -/
theorem updateAuctionStatus_not_found_or_updates_witness :
    (updateAuctionStatus [] "nonexistent-id" Completed).err =
      some (NewNotFoundError "Auction not found") ∧
    (updateAuctionStatus [activeDoc] "a1" Completed).err = none := by
  constructor
  · exact ((updateAuctionStatus_not_found_or_updates []
      "nonexistent-id" Completed).1 (by simp)).2
  · exact ((updateAuctionStatus_not_found_or_updates [activeDoc]
      "a1" Completed).2 activeDoc (by simp) rfl).1

/-- C9: pointwise along the store, `updateAuctionStatus` keeps every
document's identifier, product name, category, description, condition and
timestamp, and keeps the status of every document whose identifier is not
the targeted one: only the status of the target record may change. -/
theorem updateAuctionStatus_frame (db : List AuctionEntityMongo)
    (id : String) (st : AuctionStatus) :
    List.Forall₂ (frameRel id) db (updateAuctionStatus db id st).db := by
  have hdb : (updateAuctionStatus db id st).db = (updateOneById db id st).1 := by
    simp only [updateAuctionStatus]
    split
    · rfl
    · rfl
  rw [hdb]
  exact updateOneById_frame db id st

/-- C9 witness: the frame property applied to a one-document store targeted
at an identifier it does not hold. -/
theorem updateAuctionStatus_frame_witness :
    List.Forall₂ (frameRel "zzz") [activeDoc]
      (updateAuctionStatus [activeDoc] "zzz" Completed).db :=
  updateAuctionStatus_frame [activeDoc] "zzz" Completed

/-- C10: `CreateAuction` persists the supplied timestamp as its Unix seconds,
and every record a subsequent `FindAuctionById` returns for that identifier,
or a `FindAuctions` returns bearing that identifier, carries the supplied
creation timestamp truncated to the whole second. -/
theorem timestamps_stored_whole_second
    (db : List AuctionEntityMongo) (a : Auction)
    (db2 : List AuctionEntityMongo) (h : CreateAuction db a = .ok db2) :
    (auctionToMongo a).Timestamp = a.Timestamp.Unix ∧
    db2 = db ++ [auctionToMongo a] ∧
    (∀ r, FindAuctionById db2 a.Id = .ok r →
       r.Timestamp = truncToSecond a.Timestamp) ∧
    (∀ st c p r, r ∈ FindAuctions db2 st c p → r.Id = a.Id →
       r.Timestamp = truncToSecond a.Timestamp) := by
  obtain ⟨hdb, hfree⟩ := CreateAuction_ok h
  subst hdb
  refine ⟨rfl, rfl, ?_, ?_⟩
  · intro r hr
    have hfind : FindAuctionById (db ++ [auctionToMongo a]) a.Id
        = .ok (mongoToAuction (auctionToMongo a)) := by
      unfold FindAuctionById
      rw [find?_id_append_hit hfree (show (auctionToMongo a).Id = a.Id from rfl)]
    rw [hfind] at hr
    cases hr
    rfl
  · intro st c p r hmem hid
    obtain ⟨d, hd, hconv, _⟩ := mem_FindAuctions.mp hmem
    subst hconv
    rcases List.mem_append.mp hd with hL | hR
    · exact absurd hid (hfree d hL)
    · have : d = auctionToMongo a := by
        simpa using hR
      subst this
      rfl

/-- C10 witness: the truncation instantiated at `sampleAuction` (supplied
timestamp 100.5 s; every returned record carries 100 s). -/
theorem timestamps_stored_whole_second_witness :
    sampleFound.Timestamp = truncToSecond sampleAuction.Timestamp :=
  (timestamps_stored_whole_second [] sampleAuction sampleDb rfl).2.2.1
    sampleFound rfl

/-- C6 counterexample: the claim asserts the category filter matches
case-insensitively by substring; the stored category "Electronics" is a
case-insensitive superstring of both "electronics" and "Electro", yet
`FindAuctions` returns nothing for either, because the category key matches
by exact equality. -/
theorem category_filter_exact_counterexample :
    FindAuctions [electronicsDoc] (-1) "electronics" "" = [] ∧
    FindAuctions [electronicsDoc] (-1) "Electro" "" = [] ∧
    ciContains "electronics" electronicsDoc.Category = true ∧
    ciContains "Electro" electronicsDoc.Category = true := by
  exact ⟨rfl, rfl, rfl, rfl⟩

/-- C6 (amended): `FindAuctions` combines all supplied non-empty filters with
logical AND; the productName filter matches by case-insensitive substring —
in particular "phone" matches the stored "iPhone 15 Pro" — while the category
filter matches by exact, case-sensitive equality. -/
theorem findAuctions_and_ci_product_name :
    (∀ db st c p r, r ∈ FindAuctions db st c p ↔
       ∃ d, d ∈ db ∧ r = mongoToAuction d ∧
         (st = -1 ∨ d.Status = st) ∧ (c = "" ∨ d.Category = c) ∧
         (p = "" ∨ ciContains p d.ProductName = true)) ∧
    ciContains "phone" "iPhone 15 Pro" = true ∧
    FindAuctions [electronicsDoc] (-1) "" "phone" =
      [mongoToAuction electronicsDoc] := by
  refine ⟨?_, rfl, rfl⟩
  intro db st c p r
  exact mem_FindAuctions

/-- C6 witness: membership of the "iPhone 15 Pro" auction in the result of
the productName filter "phone", through the AND characterization. -/
theorem findAuctions_and_ci_product_name_witness :
    mongoToAuction electronicsDoc ∈
      FindAuctions [electronicsDoc] (-1) "" "phone" :=
  (findAuctions_and_ci_product_name.1 [electronicsDoc] (-1) "" "phone"
    (mongoToAuction electronicsDoc)).mpr
    ⟨electronicsDoc, by simp, rfl, Or.inl rfl, Or.inl rfl, Or.inr rfl⟩

/-- C7 counterexample: the status value 2 lies outside the enumerated set
{Active, Completed}, yet `FindAuctions` with it and empty category and
productName returns nothing rather than every stored auction: only -1 is the
"any status" sentinel. -/
theorem status_two_not_sentinel_counterexample :
    FindAuctions [activeDoc] 2 "" "" = [] ∧
    ¬ mongoToAuction activeDoc ∈ FindAuctions [activeDoc] 2 "" "" ∧
    ¬ (2 : AuctionStatus) = Active ∧ ¬ (2 : AuctionStatus) = Completed := by
  refine ⟨rfl, ?_, by decide, by decide⟩
  rw [show FindAuctions [activeDoc] 2 "" "" = ([] : List Auction) from rfl]
  exact List.not_mem_nil _

/-- C7 (amended): for the explicit sentinel -1 (the only status value the
source treats as "no status filter"), `FindAuctions` with empty category and
productName returns every stored auction regardless of its status. -/
theorem findAuctions_sentinel_returns_all (db : List AuctionEntityMongo) :
    FindAuctions db (-1) "" "" = db.map mongoToAuction := by
  unfold FindAuctions
  have hfd : db.filter (auctionMatches (-1) "" "") = db := by
    induction db with
    | nil => rfl
    | cons d rest ih => simp [List.filter, auctionMatches_sentinel d, ih]
  rw [hfd]

/-- C7 witness: the sentinel query applied to a store holding one Active and
one Completed auction returns both. -/
theorem findAuctions_sentinel_returns_all_witness :
    FindAuctions [activeDoc, completedDoc] (-1) "" "" =
      [mongoToAuction activeDoc, mongoToAuction completedDoc] :=
  findAuctions_sentinel_returns_all [activeDoc, completedDoc]

/-- C4 counterexample: `completedDoc` is already Completed, yet the close
attempt on it returns no error — it is treated as success, not reported as an
error as the claim states. -/
theorem close_completed_success_counterexample :
    completedDoc.Status = Completed ∧
    (updateAuctionStatus [completedDoc] "c1" Completed).err = none ∧
    (updateAuctionStatus [completedDoc] "c1" Completed).db =
      [completedDoc] := by
  refine ⟨rfl, rfl, ?_⟩
  decide

/-- C4 (amended): the status value moves Active → Completed at most once and
never reverts: closing a non-existent auction is reported as a not-found
error, and a close aimed at an already-Completed auction leaves every record
with that identifier Completed — but that attempt is treated as success (no
error), not reported as an error, since the update filter matches on the
identifier alone. -/
theorem close_at_most_once (db : List AuctionEntityMongo) (id : String) :
    ((∀ d ∈ db, ¬ d.Id = id) →
       (updateAuctionStatus db id Completed).err =
         some (NewNotFoundError "Auction not found")) ∧
    ((∃ d ∈ db, d.Id = id) →
       (∀ d ∈ db, d.Id = id → d.Status = Completed) →
       (updateAuctionStatus db id Completed).err = none ∧
       ∀ d2 ∈ (updateAuctionStatus db id Completed).db, d2.Id = id →
         d2.Status = Completed) := by
  constructor
  · intro h
    have hz := updateOneById_no_match Completed h
    simp only [updateAuctionStatus, hz]
    rfl
  · rintro ⟨d, hd, hid⟩ hall
    have hm := (updateOneById_matched_of_mem Completed hd hid).1
    have hdbeq : (updateAuctionStatus db id Completed).db =
        (updateOneById db id Completed).1 := by
      simp only [updateAuctionStatus]
      split
      · rfl
      · rfl
    constructor
    · simp only [updateAuctionStatus, hm]
      rfl
    · intro d2 hd2 hd2id
      rw [hdbeq] at hd2
      obtain ⟨d0, hd0, hcase⟩ := mem_updateOneById hd2
      rcases hcase with h1 | ⟨_, h2⟩
      · rw [h1] at hd2id ⊢
        exact hall d0 hd0 hd2id
      · rw [h2]

/-- C4 witness: a close aimed at the already-Completed `completedDoc`
succeeds and every record with its identifier stays Completed. -/
theorem close_at_most_once_witness :
    (updateAuctionStatus [completedDoc] "c1" Completed).err = none :=
  ((close_at_most_once [completedDoc] "c1").2
    ⟨completedDoc, by simp, rfl⟩
    (fun d hd _ => by
      simp at hd
      subst hd
      rfl)).1

/-- C1: after a successful `CreateAuction`, the timer-fired run of the expiry
unit issues exactly one `updateAuctionStatus(id, Completed)` attempt and
terminates in the closed state (never retried); the attempt succeeds and a
subsequent `FindAuctionById` returns a record with status Completed.  Against
any store state lacking the identifier the single attempt fails, the error is
logged, and the unit still terminates after that one attempt. -/
theorem expiry_single_close_attempt
    (db : List AuctionEntityMongo) (a : Auction)
    (db2 : List AuctionEntityMongo) (h : CreateAuction db a = .ok db2) :
    ((expiryUnitRun db2 a.Id .timerFired).updateAttempts = 1 ∧
     (expiryUnitRun db2 a.Id .timerFired).final = .closed ∧
     ∃ r, FindAuctionById (expiryUnitRun db2 a.Id .timerFired).db a.Id =
         .ok r ∧ r.Status = Completed) ∧
    (∀ dbF, (∀ d ∈ dbF, ¬ d.Id = a.Id) →
       (expiryUnitRun dbF a.Id .timerFired).updateAttempts = 1 ∧
       ¬ (expiryUnitRun dbF a.Id .timerFired).logs = [] ∧
       (expiryUnitRun dbF a.Id .timerFired).final = .closed) := by
  obtain ⟨hdb, hfree⟩ := CreateAuction_ok h
  subst hdb
  constructor
  · refine ⟨rfl, rfl, ?_⟩
    have hone := updateOneById_append_hit Completed hfree
      (show (auctionToMongo a).Id = a.Id from rfl)
    have hup : updateAuctionStatus (db ++ [auctionToMongo a]) a.Id Completed =
        ⟨db ++ [{ auctionToMongo a with Status := Completed }], none, []⟩ := by
      simp only [updateAuctionStatus]
      rw [hone]
      rfl
    refine ⟨mongoToAuction { auctionToMongo a with Status := Completed },
      ?_, rfl⟩
    show FindAuctionById
      (updateAuctionStatus (db ++ [auctionToMongo a]) a.Id Completed).db
      a.Id = _
    rw [hup]
    unfold FindAuctionById
    rw [find?_id_append_hit hfree
      (show ({ auctionToMongo a with Status := Completed }).Id = a.Id
        from rfl)]
  · intro dbF hf
    have hz := updateOneById_no_match Completed hf
    refine ⟨rfl, ?_, rfl⟩
    have hl : (expiryUnitRun dbF a.Id .timerFired).logs =
        ["Auction not found for status update"] := by
      show (updateAuctionStatus dbF a.Id Completed).logs = _
      simp only [updateAuctionStatus, hz]
      rfl
    rw [hl]
    simp

/-- C1 witness: the full run instantiated at `sampleAuction` created against
the empty store. -/
theorem expiry_single_close_attempt_witness :
    (expiryUnitRun sampleDb sampleAuction.Id .timerFired).updateAttempts = 1 :=
  ((expiry_single_close_attempt [] sampleAuction sampleDb rfl).1).1

/-- C3: a run of the expiry unit that observes the cancellation signal before
the timer fires makes no status-update attempt, leaves the store untouched
and terminates in the aborted state: any record the store returned Active
before is returned unchanged, still Active, after — and no further transition
of the unit exists. -/
theorem shutdown_leaves_auction_active
    (db : List AuctionEntityMongo) (id : String) :
    (expiryUnitRun db id .ctxDone).updateAttempts = 0 ∧
    (expiryUnitRun db id .ctxDone).db = db ∧
    (expiryUnitRun db id .ctxDone).final = .aborted ∧
    ∀ r, FindAuctionById db id = .ok r → r.Status = Active →
      FindAuctionById (expiryUnitRun db id .ctxDone).db id = .ok r ∧
      r.Status = Active := by
  refine ⟨rfl, rfl, rfl, ?_⟩
  intro r h hs
  exact ⟨h, hs⟩

/-- C3 witness: the cancellation run over a store holding one Active auction
leaves that auction Active. -/
theorem shutdown_leaves_auction_active_witness :
    FindAuctionById (expiryUnitRun [activeDoc] "a1" .ctxDone).db "a1" =
      .ok (mongoToAuction activeDoc) :=
  ((shutdown_leaves_auction_active [activeDoc] "a1").2.2.2
    (mongoToAuction activeDoc) rfl rfl).1

/-- C8: `getAuctionInterval` substitutes exactly 5 minutes (300000000000 ns)
whenever the configured string fails to parse — the absent (empty) string and
"bogus" included — and returns the parsed duration for every parseable
string; its return type has no error channel, so no failure reaches any
caller. -/
theorem getAuctionInterval_default_or_parsed :
    (∀ s, parseDuration s = none → getAuctionInterval s = 300000000000) ∧
    (∀ s d, parseDuration s = some d → getAuctionInterval s = d) ∧
    parseDuration "" = none ∧
    parseDuration "bogus" = none ∧
    getAuctionInterval "" = 300000000000 ∧
    getAuctionInterval "bogus" = 300000000000 ∧
    getAuctionInterval "1m30s" = 90000000000 := by
  refine ⟨?_, ?_, rfl, rfl, rfl, rfl, rfl⟩
  · intro s h
    unfold getAuctionInterval
    rw [h]
  · intro s d h
    unfold getAuctionInterval
    rw [h]

/-- C8 witness: the parseable configuration "2m" (the repository test's
custom interval) yields exactly the parsed 120000000000 ns. -/
theorem getAuctionInterval_default_or_parsed_witness :
    getAuctionInterval "2m" = 120000000000 :=
  getAuctionInterval_default_or_parsed.2.1 "2m" 120000000000 rfl
